import Mathlib

/-
Verification of the 2D collision simulator (main.c and its earlier variant).
The C program works on 32-bit floats; this development embeds the same
arithmetic over the rationals, with the square root of the C library
modelled as an explicit function argument that theorems constrain by the
defining equation of the square root at the point of use.
-/

namespace Sim

/-- Two dimensional vector with rational coordinates, modelling raylib Vector2. -/
structure Vector2 where
  x : ℚ
  y : ℚ
deriving DecidableEq

/-- RGBA color, modelling raylib Color; the physics never reads it. -/
structure Color where
  r : ℕ
  g : ℕ
  b : ℕ
  a : ℕ
deriving DecidableEq

/-- Ball record from main.c lines 19 to 25: position, velocity,
integer radius, mass, color. -/
structure Ball where
  position : Vector2
  velocity : Vector2
  radius : ℤ
  mass : ℚ
  color : Color
deriving DecidableEq

/-- Simulation constant: const int WIDTH = 800. -/
def WIDTH : ℚ := 800

/-- Simulation constant: const int HEIGHT = 600. -/
def HEIGHT : ℚ := 600

/-- Simulation constant: const int NUM_BALLS = 10 in main.c. -/
def NUM_BALLS : ℕ := 10

/-- Simulation constant: const float RESTITUTION_COEFFICIENT = 1.0f in
main.c; the earlier variant uses 0.85f, so the physics functions below take
the coefficient as the parameter e and this constant records the main.c
value. -/
def RESTITUTION_COEFFICIENT : ℚ := 1

/-- Simulation constant: const int MIN_BALL_RADIUS = 15. -/
def MIN_BALL_RADIUS : ℤ := 15

/-- Simulation constant: const int MAX_BALL_RADIUS = 35. -/
def MAX_BALL_RADIUS : ℤ := 35

/-- Simulation constant: const float VELOCITY_SCALE = 200.0f. -/
def VELOCITY_SCALE : ℚ := 200

/-- Wall collision resolution, from CheckWallCollision: each axis is
checked independently, the center is clamped so the edge lies on the
boundary and the velocity component is multiplied by minus the
restitution coefficient e. -/
def CheckWallCollision (e : ℚ) (ball : Ball) : Ball :=
  let bx :=
    if ball.position.x - (ball.radius : ℚ) ≤ 0 then
      { ball with position := ⟨(ball.radius : ℚ), ball.position.y⟩,
                  velocity := ⟨ball.velocity.x * (-e), ball.velocity.y⟩ }
    else if ball.position.x + (ball.radius : ℚ) ≥ WIDTH then
      { ball with position := ⟨WIDTH - (ball.radius : ℚ), ball.position.y⟩,
                  velocity := ⟨ball.velocity.x * (-e), ball.velocity.y⟩ }
    else ball
  if bx.position.y - (bx.radius : ℚ) ≤ 0 then
    { bx with position := ⟨bx.position.x, (bx.radius : ℚ)⟩,
              velocity := ⟨bx.velocity.x, bx.velocity.y * (-e)⟩ }
  else if bx.position.y + (bx.radius : ℚ) ≥ HEIGHT then
    { bx with position := ⟨bx.position.x, HEIGHT - (bx.radius : ℚ)⟩,
              velocity := ⟨bx.velocity.x, bx.velocity.y * (-e)⟩ }
  else bx

/-- Velocity resolution part of CheckBallCollision (lines 188 to 201):
relative velocity projected on the normal; if positive the balls separate
and nothing happens, otherwise the impulse
-(1+e) * velocityAlongNormal / (1/m1 + 1/m2) is applied to both
velocities, divided by each mass. -/
def applyImpulse (e : ℚ) (nx ny : ℚ) (b1 b2 : Ball) : Ball × Ball :=
  let rvx := b2.velocity.x - b1.velocity.x
  let rvy := b2.velocity.y - b1.velocity.y
  let velocityAlongNormal := rvx * nx + rvy * ny
  if velocityAlongNormal > 0 then (b1, b2)
  else
    let impulse := -(1 + e) * velocityAlongNormal / (1 / b1.mass + 1 / b2.mass)
    ({ b1 with velocity := ⟨b1.velocity.x - impulse * nx / b1.mass,
                            b1.velocity.y - impulse * ny / b1.mass⟩ },
     { b2 with velocity := ⟨b2.velocity.x + impulse * nx / b2.mass,
                            b2.velocity.y + impulse * ny / b2.mass⟩ })

/-- Pairwise collision resolution, from CheckBallCollision (lines 166 to
203): under the guard distSq < min_dist * min_dist and distSq > 0, the
positions are pushed apart by half the overlap along the normal and then
the impulse is applied to the velocities. The C call sqrtf(distSq) is
modelled by the function argument sq applied to distSq. -/
def CheckBallCollision (e : ℚ) (sq : ℚ → ℚ) (b1 b2 : Ball) : Ball × Ball :=
  let dx := b2.position.x - b1.position.x
  let dy := b2.position.y - b1.position.y
  let distSq := dx * dx + dy * dy
  let min_dist : ℚ := (b1.radius : ℚ) + (b2.radius : ℚ)
  if distSq < min_dist * min_dist ∧ 0 < distSq then
    let distance := sq distSq
    let nx := dx / distance
    let ny := dy / distance
    let overlap := 1/2 * (min_dist - distance)
    applyImpulse e nx ny
      { b1 with position := ⟨b1.position.x - overlap * nx, b1.position.y - overlap * ny⟩ }
      { b2 with position := ⟨b2.position.x + overlap * nx, b2.position.y + overlap * ny⟩ }
  else (b1, b2)

/-- Squared distance between two ball centers, the distSq of
CheckBallCollision. -/
def distSqOf (b1 b2 : Ball) : ℚ :=
  (b2.position.x - b1.position.x) * (b2.position.x - b1.position.x) +
  (b2.position.y - b1.position.y) * (b2.position.y - b1.position.y)

/-- Sum of the radii, the min_dist of CheckBallCollision. -/
def minDistOf (b1 b2 : Ball) : ℚ := (b1.radius : ℚ) + (b2.radius : ℚ)

/-- Relative velocity projected on the collision normal, the
velocityAlongNormal of CheckBallCollision, with sq modelling sqrtf. -/
def velAlongNormalOf (sq : ℚ → ℚ) (b1 b2 : Ball) : ℚ :=
  let dx := b2.position.x - b1.position.x
  let dy := b2.position.y - b1.position.y
  let d := sq (distSqOf b1 b2)
  (b2.velocity.x - b1.velocity.x) * (dx / d) + (b2.velocity.y - b1.velocity.y) * (dy / d)

/-- Kinetic energy of one ball, the loop body of
CalculateTotalKineticEnergy: 0.5 * mass * (vx*vx + vy*vy). -/
def kineticEnergy (b : Ball) : ℚ :=
  1/2 * b.mass * (b.velocity.x * b.velocity.x + b.velocity.y * b.velocity.y)

/-- Total kinetic energy of a list of balls, from
CalculateTotalKineticEnergy (lines 66 to 74). -/
def CalculateTotalKineticEnergy (balls : List Ball) : ℚ :=
  balls.foldl (fun acc b => acc + kineticEnergy b) 0

/-- Position integration step of UpdateFrame (lines 84 to 85):
position += velocity * deltaTime. -/
def integratePosition (dt : ℚ) (b : Ball) : Ball :=
  { b with position := ⟨b.position.x + b.velocity.x * dt,
                        b.position.y + b.velocity.y * dt⟩ }

/-- In-place wall check of ball i inside the UpdateFrame loop. -/
def wallStep (e : ℚ) (bs : List Ball) (i : ℕ) : List Ball :=
  match bs.get? i with
  | some b => bs.set i (CheckWallCollision e b)
  | none => bs

/-- In-place pairwise collision of balls i and j inside the UpdateFrame
loop. -/
def pairStep (e : ℚ) (sq : ℚ → ℚ) (bs : List Ball) (i j : ℕ) : List Ball :=
  match bs.get? i, bs.get? j with
  | some b1, some b2 =>
    let r := CheckBallCollision e sq b1 b2
    (bs.set i r.1).set j r.2
  | _, _ => bs

/-- Frame update, from UpdateFrame (lines 80 to 94): integrate all
positions by deltaTime, then for each i in order run the wall check on
ball i followed by the pairwise collision of i with every j > i, mutating
the array as it goes. -/
def UpdateFrame (e : ℚ) (sq : ℚ → ℚ) (dt : ℚ) (balls : List Ball) : List Ball :=
  let moved := balls.map (integratePosition dt)
  (List.range moved.length).foldl
    (fun bs i =>
      ((List.range moved.length).drop (i + 1)).foldl
        (fun cs j => pairStep e sq cs i j)
        (wallStep e bs i))
    moved

/-- Containment of a ball in the window, the wall containment property of
the spec. -/
def contained (b : Ball) : Prop :=
  (b.radius : ℚ) ≤ b.position.x ∧ b.position.x ≤ WIDTH - (b.radius : ℚ) ∧
  (b.radius : ℚ) ≤ b.position.y ∧ b.position.y ≤ HEIGHT - (b.radius : ℚ)

instance (b : Ball) : Decidable (contained b) := by
  unfold contained; infer_instance

/-- Shape of a ball produced by InitBalls (lines 128 to 129): radius drawn
from the closed interval between the radius bounds and mass equal to
radius / 2. -/
def InitializedBall (b : Ball) : Prop :=
  MIN_BALL_RADIUS ≤ b.radius ∧ b.radius ≤ MAX_BALL_RADIUS ∧
  b.mass = (b.radius : ℚ) / 2

/-- Concrete square root table for the perfect squares used by concrete
scenarios; it is exact at those inputs, which the theorems require. -/
def sqTable (q : ℚ) : ℚ :=
  if q = 100 then 10
  else if q = 225 then 15
  else if q = 400 then 20
  else if q = 625 then 25
  else if q = 1521 then 39
  else 0

/-- Fields of a ball never touched by the physics: radius, mass, color. -/
def shape (b : Ball) : ℤ × ℚ × Color := (b.radius, b.mass, b.color)

/-- The x component of the collision normal nx of CheckBallCollision. -/
def normalXOf (sq : ℚ → ℚ) (b1 b2 : Ball) : ℚ :=
  (b2.position.x - b1.position.x) / sq (distSqOf b1 b2)

/-- The y component of the collision normal ny of CheckBallCollision. -/
def normalYOf (sq : ℚ → ℚ) (b1 b2 : Ball) : ℚ :=
  (b2.position.y - b1.position.y) / sq (distSqOf b1 b2)

/-- Half of the overlap, the quantity overlap of CheckBallCollision. -/
def overlapOf (sq : ℚ → ℚ) (b1 b2 : Ball) : ℚ :=
  1/2 * (minDistOf b1 b2 - sq (distSqOf b1 b2))

/-- Concrete ball used by witnesses: moving right toward wbB. -/
def wbA : Ball := ⟨⟨0, 0⟩, ⟨30, 0⟩, 15, 15/2, ⟨200, 100, 100, 255⟩⟩

/-- Concrete ball used by witnesses: moving left toward wbA, overlapping it. -/
def wbB : Ball := ⟨⟨20, 0⟩, ⟨-30, 0⟩, 15, 15/2, ⟨100, 200, 100, 255⟩⟩

/-- Concrete ball used by witnesses: overlapping wbD but moving away. -/
def wbC : Ball := ⟨⟨0, 0⟩, ⟨-5, 0⟩, 15, 15/2, ⟨100, 100, 200, 255⟩⟩

/-- Concrete ball used by witnesses: overlapping wbC but moving away. -/
def wbD : Ball := ⟨⟨20, 0⟩, ⟨5, 0⟩, 15, 15/2, ⟨150, 150, 150, 255⟩⟩

/-- Concrete ball of initializer shape used by the witness of the
division-safety claim. -/
def wbE : Ball := ⟨⟨100, 100⟩, ⟨40, 0⟩, 20, 10, ⟨120, 130, 140, 255⟩⟩

/-- Concrete ball of initializer shape used by the witness of the
division-safety claim. -/
def wbF : Ball := ⟨⟨115, 120⟩, ⟨0, 0⟩, 20, 10, ⟨140, 130, 120, 255⟩⟩

/-- Concrete ball outside the window on two axes, used by the witness of
the wall clamping theorem. -/
def wbW : Ball := ⟨⟨-50, 700⟩, ⟨-10, 10⟩, 15, 15/2, ⟨160, 170, 180, 255⟩⟩

/-- Concrete ball for the wall containment counterexample: resting on the
left wall. -/
def cexBallA : Ball := ⟨⟨15, 300⟩, ⟨0, 0⟩, 15, 15/2, ⟨110, 120, 130, 255⟩⟩

/-- Concrete ball for the wall containment counterexample: overlapping
cexBallA from the right. -/
def cexBallB : Ball := ⟨⟨35, 300⟩, ⟨0, 0⟩, 15, 15/2, ⟨130, 120, 110, 255⟩⟩

/-- Distinct centers give a positive squared distance. -/
lemma distSq_pos (b1 b2 : Ball) (hne : b1.position ≠ b2.position) :
    0 < distSqOf b1 b2 := by
  have h0 : (0:ℚ) ≤ distSqOf b1 b2 := by
    unfold distSqOf
    have := mul_self_nonneg (b2.position.x - b1.position.x)
    have := mul_self_nonneg (b2.position.y - b1.position.y)
    linarith
  rcases lt_or_eq_of_le h0 with h | h
  · exact h
  · exfalso
    apply hne
    unfold distSqOf at h
    have hxx := mul_self_nonneg (b2.position.x - b1.position.x)
    have hyy := mul_self_nonneg (b2.position.y - b1.position.y)
    have hx : b2.position.x - b1.position.x = 0 := by nlinarith
    have hy : b2.position.y - b1.position.y = 0 := by nlinarith
    have ex : b1.position.x = b2.position.x := by linarith
    have ey : b1.position.y = b2.position.y := by linarith
    calc b1.position = ⟨b1.position.x, b1.position.y⟩ := rfl
      _ = ⟨b2.position.x, b2.position.y⟩ := by rw [ex, ey]
      _ = b2.position := rfl

/-- The impulse step never moves the positions. -/
lemma applyImpulse_position (e nx ny : ℚ) (b1 b2 : Ball) :
    (applyImpulse e nx ny b1 b2).1.position = b1.position ∧
    (applyImpulse e nx ny b1 b2).2.position = b2.position := by
  refine ⟨?_, ?_⟩ <;> (simp only [applyImpulse]; split <;> rfl)

/-- The impulse step never changes radius, mass or color. -/
lemma applyImpulse_shape (e nx ny : ℚ) (b1 b2 : Ball) :
    shape (applyImpulse e nx ny b1 b2).1 = shape b1 ∧
    shape (applyImpulse e nx ny b1 b2).2 = shape b2 := by
  refine ⟨?_, ?_⟩ <;> (simp only [applyImpulse]; split <;> rfl)

/-- The impulse step preserves total momentum, componentwise. -/
lemma applyImpulse_momentum (e nx ny : ℚ) (b1 b2 : Ball)
    (h1 : b1.mass ≠ 0) (h2 : b2.mass ≠ 0) :
    b1.mass * (applyImpulse e nx ny b1 b2).1.velocity.x +
      b2.mass * (applyImpulse e nx ny b1 b2).2.velocity.x =
      b1.mass * b1.velocity.x + b2.mass * b2.velocity.x ∧
    b1.mass * (applyImpulse e nx ny b1 b2).1.velocity.y +
      b2.mass * (applyImpulse e nx ny b1 b2).2.velocity.y =
      b1.mass * b1.velocity.y + b2.mass * b2.velocity.y := by
  refine ⟨?_, ?_⟩ <;>
    (simp only [applyImpulse]; split
     · rfl
     · simp only
       generalize -(1 + e) * ((b2.velocity.x - b1.velocity.x) * nx +
         (b2.velocity.y - b1.velocity.y) * ny) / (1 / b1.mass + 1 / b2.mass) = j
       field_simp
       ring)

/-- Expansion of the kinetic energy after an arbitrary impulse j along
the direction (nx, ny). -/
lemma energy_expand (j nx ny m1 m2 v1x v1y v2x v2y : ℚ)
    (h1 : m1 ≠ 0) (h2 : m2 ≠ 0) :
    1/2 * m1 * ((v1x - j * nx / m1) * (v1x - j * nx / m1) +
        (v1y - j * ny / m1) * (v1y - j * ny / m1)) +
      1/2 * m2 * ((v2x + j * nx / m2) * (v2x + j * nx / m2) +
        (v2y + j * ny / m2) * (v2y + j * ny / m2)) =
    1/2 * m1 * (v1x * v1x + v1y * v1y) + 1/2 * m2 * (v2x * v2x + v2y * v2y) +
      j * ((v2x - v1x) * nx + (v2y - v1y) * ny) +
      1/2 * j * j * (nx * nx + ny * ny) * (1 / m1 + 1 / m2) := by
  field_simp
  ring

/-- Value of the collision impulse terms in the energy balance. -/
lemma impulse_delta (e A m1 m2 : ℚ)
    (h1 : 0 < m1) (h2 : 0 < m2) :
    -(1 + e) * A / (1 / m1 + 1 / m2) * A +
      1/2 * (-(1 + e) * A / (1 / m1 + 1 / m2)) * (-(1 + e) * A / (1 / m1 + 1 / m2)) *
        (1 / m1 + 1 / m2) =
    (1 + e) * (e - 1) / 2 * (A * A) * (m1 * m2) / (m1 + m2) := by
  have h1' : m1 ≠ 0 := ne_of_gt h1
  have h2' : m2 ≠ 0 := ne_of_gt h2
  have hs : m1 + m2 ≠ 0 := ne_of_gt (add_pos h1 h2)
  have hK : 1 / m1 + 1 / m2 ≠ 0 := by
    have : 1 / m1 + 1 / m2 = (m1 + m2) / (m1 * m2) := by field_simp; ring
    rw [this]
    positivity
  field_simp
  ring

/-- Energy balance of the impulse step when the balls are not already
separating along the normal and the normal is a unit vector. -/
lemma applyImpulse_energy (e nx ny : ℚ) (b1 b2 : Ball)
    (h1 : 0 < b1.mass) (h2 : 0 < b2.mass)
    (hn : nx * nx + ny * ny = 1)
    (hA : (b2.velocity.x - b1.velocity.x) * nx + (b2.velocity.y - b1.velocity.y) * ny ≤ 0) :
    kineticEnergy (applyImpulse e nx ny b1 b2).1 +
      kineticEnergy (applyImpulse e nx ny b1 b2).2 =
    kineticEnergy b1 + kineticEnergy b2 +
      (1 + e) * (e - 1) / 2 *
        (((b2.velocity.x - b1.velocity.x) * nx + (b2.velocity.y - b1.velocity.y) * ny) *
          ((b2.velocity.x - b1.velocity.x) * nx + (b2.velocity.y - b1.velocity.y) * ny)) *
        (b1.mass * b2.mass) / (b1.mass + b2.mass) := by
  simp only [applyImpulse]
  rw [if_neg (not_lt.mpr hA)]
  simp only [kineticEnergy]
  rw [energy_expand _ nx ny b1.mass b2.mass _ _ _ _ (ne_of_gt h1) (ne_of_gt h2), hn]
  have hd := impulse_delta e
    ((b2.velocity.x - b1.velocity.x) * nx + (b2.velocity.y - b1.velocity.y) * ny)
    b1.mass b2.mass h1 h2
  linarith [hd]

/-- When the collision guard fails the pair is returned unchanged. -/
lemma CheckBallCollision_skip (e : ℚ) (sq : ℚ → ℚ) (b1 b2 : Ball)
    (h : ¬(distSqOf b1 b2 < minDistOf b1 b2 * minDistOf b1 b2 ∧ 0 < distSqOf b1 b2)) :
    CheckBallCollision e sq b1 b2 = (b1, b2) := by
  simp only [distSqOf, minDistOf] at h
  simp only [CheckBallCollision]
  rw [if_neg h]

/-- Under the collision guard, CheckBallCollision is the positional
correction followed by the impulse step. -/
lemma CheckBallCollision_eq (e : ℚ) (sq : ℚ → ℚ) (b1 b2 : Ball)
    (h : distSqOf b1 b2 < minDistOf b1 b2 * minDistOf b1 b2 ∧ 0 < distSqOf b1 b2) :
    CheckBallCollision e sq b1 b2 =
      applyImpulse e (normalXOf sq b1 b2) (normalYOf sq b1 b2)
        { b1 with position := ⟨b1.position.x - overlapOf sq b1 b2 * normalXOf sq b1 b2,
                               b1.position.y - overlapOf sq b1 b2 * normalYOf sq b1 b2⟩ }
        { b2 with position := ⟨b2.position.x + overlapOf sq b1 b2 * normalXOf sq b1 b2,
                               b2.position.y + overlapOf sq b1 b2 * normalYOf sq b1 b2⟩ } := by
  simp only [distSqOf, minDistOf] at h
  simp only [CheckBallCollision, normalXOf, normalYOf, overlapOf, distSqOf, minDistOf]
  rw [if_pos h]

/-- The impulse step returns both balls unchanged when they already
separate along the normal. -/
lemma applyImpulse_sep (e nx ny : ℚ) (b1 b2 : Ball)
    (h : 0 < (b2.velocity.x - b1.velocity.x) * nx + (b2.velocity.y - b1.velocity.y) * ny) :
    applyImpulse e nx ny b1 b2 = (b1, b2) := by
  simp only [applyImpulse]
  rw [if_pos h]

/-- The impulse step never changes the masses. -/
lemma applyImpulse_mass (e nx ny : ℚ) (b1 b2 : Ball) :
    (applyImpulse e nx ny b1 b2).1.mass = b1.mass ∧
    (applyImpulse e nx ny b1 b2).2.mass = b2.mass := by
  refine ⟨?_, ?_⟩ <;> (simp only [applyImpulse]; split <;> rfl)

/-- C10: for a colliding pair with distinct centers, the componentwise sum
of the two positions is unchanged by CheckBallCollision, because the two
balls are pushed by half the overlap in opposite directions along the
normal. -/
theorem positional_correction_preserves_center (e : ℚ) (sq : ℚ → ℚ) (b1 b2 : Ball)
    (hne : b1.position ≠ b2.position)
    (hover : distSqOf b1 b2 < minDistOf b1 b2 * minDistOf b1 b2) :
    (CheckBallCollision e sq b1 b2).1.position.x +
      (CheckBallCollision e sq b1 b2).2.position.x = b1.position.x + b2.position.x ∧
    (CheckBallCollision e sq b1 b2).1.position.y +
      (CheckBallCollision e sq b1 b2).2.position.y = b1.position.y + b2.position.y := by
  rw [CheckBallCollision_eq e sq b1 b2 ⟨hover, distSq_pos b1 b2 hne⟩]
  rw [(applyImpulse_position _ _ _ _ _).1, (applyImpulse_position _ _ _ _ _).2]
  simp only
  constructor <;> ring

/-- Witness for the C10 theorem at a concrete overlapping pair. -/
theorem positional_correction_preserves_center_witness :
    wbA.position ≠ wbB.position ∧
    distSqOf wbA wbB < minDistOf wbA wbB * minDistOf wbA wbB ∧
    ((CheckBallCollision 1 sqTable wbA wbB).1.position.x +
        (CheckBallCollision 1 sqTable wbA wbB).2.position.x =
        wbA.position.x + wbB.position.x ∧
      (CheckBallCollision 1 sqTable wbA wbB).1.position.y +
        (CheckBallCollision 1 sqTable wbA wbB).2.position.y =
        wbA.position.y + wbB.position.y) := by
  have h1 : wbA.position ≠ wbB.position := by
    simp only [wbA, wbB]
    intro h
    exact absurd (congrArg Vector2.x h) (by norm_num)
  have h2 : distSqOf wbA wbB < minDistOf wbA wbB * minDistOf wbA wbB := by
    norm_num [distSqOf, minDistOf, wbA, wbB]
  exact ⟨h1, h2, positional_correction_preserves_center 1 sqTable wbA wbB h1 h2⟩

/-- C8: an overlapping pair that is already separating along the normal
keeps both velocities, while the positional correction is still applied
to both positions. -/
theorem separating_pair_keeps_velocities (e : ℚ) (sq : ℚ → ℚ) (b1 b2 : Ball)
    (hne : b1.position ≠ b2.position)
    (hover : distSqOf b1 b2 < minDistOf b1 b2 * minDistOf b1 b2)
    (hsep : 0 < velAlongNormalOf sq b1 b2) :
    (CheckBallCollision e sq b1 b2).1.velocity = b1.velocity ∧
    (CheckBallCollision e sq b1 b2).2.velocity = b2.velocity ∧
    (CheckBallCollision e sq b1 b2).1.position =
      ⟨b1.position.x - overlapOf sq b1 b2 * normalXOf sq b1 b2,
       b1.position.y - overlapOf sq b1 b2 * normalYOf sq b1 b2⟩ ∧
    (CheckBallCollision e sq b1 b2).2.position =
      ⟨b2.position.x + overlapOf sq b1 b2 * normalXOf sq b1 b2,
       b2.position.y + overlapOf sq b1 b2 * normalYOf sq b1 b2⟩ := by
  rw [CheckBallCollision_eq e sq b1 b2 ⟨hover, distSq_pos b1 b2 hne⟩]
  have hsep' : 0 < (b2.velocity.x - b1.velocity.x) * normalXOf sq b1 b2 +
      (b2.velocity.y - b1.velocity.y) * normalYOf sq b1 b2 := by
    simpa [velAlongNormalOf, normalXOf, normalYOf] using hsep
  rw [applyImpulse_sep e _ _ _ _ (by simpa using hsep')]
  exact ⟨rfl, rfl, rfl, rfl⟩

/-- Witness for the C8 theorem at a concrete separating pair. -/
theorem separating_pair_keeps_velocities_witness :
    wbC.position ≠ wbD.position ∧
    distSqOf wbC wbD < minDistOf wbC wbD * minDistOf wbC wbD ∧
    0 < velAlongNormalOf sqTable wbC wbD ∧
    ((CheckBallCollision 1 sqTable wbC wbD).1.velocity = wbC.velocity ∧
      (CheckBallCollision 1 sqTable wbC wbD).2.velocity = wbD.velocity ∧
      (CheckBallCollision 1 sqTable wbC wbD).1.position =
        ⟨wbC.position.x - overlapOf sqTable wbC wbD * normalXOf sqTable wbC wbD,
         wbC.position.y - overlapOf sqTable wbC wbD * normalYOf sqTable wbC wbD⟩ ∧
      (CheckBallCollision 1 sqTable wbC wbD).2.position =
        ⟨wbD.position.x + overlapOf sqTable wbC wbD * normalXOf sqTable wbC wbD,
         wbD.position.y + overlapOf sqTable wbC wbD * normalYOf sqTable wbC wbD⟩) := by
  have h1 : wbC.position ≠ wbD.position := by
    simp only [wbC, wbD]
    intro h
    exact absurd (congrArg Vector2.x h) (by norm_num)
  have h2 : distSqOf wbC wbD < minDistOf wbC wbD * minDistOf wbC wbD := by
    norm_num [distSqOf, minDistOf, wbC, wbD]
  have h3 : 0 < velAlongNormalOf sqTable wbC wbD := by
    norm_num [velAlongNormalOf, distSqOf, sqTable, wbC, wbD]
  exact ⟨h1, h2, h3, separating_pair_keeps_velocities 1 sqTable wbC wbD h1 h2 h3⟩

/-- C1: for positive masses and distinct centers, CheckBallCollision
preserves the total momentum mass1 * velocity1 + mass2 * velocity2
componentwise, with exact arithmetic. -/
theorem momentum_conserved (e : ℚ) (sq : ℚ → ℚ) (b1 b2 : Ball)
    (hm1 : 0 < b1.mass) (hm2 : 0 < b2.mass)
    (hne : b1.position ≠ b2.position) :
    (CheckBallCollision e sq b1 b2).1.mass * (CheckBallCollision e sq b1 b2).1.velocity.x +
      (CheckBallCollision e sq b1 b2).2.mass * (CheckBallCollision e sq b1 b2).2.velocity.x =
      b1.mass * b1.velocity.x + b2.mass * b2.velocity.x ∧
    (CheckBallCollision e sq b1 b2).1.mass * (CheckBallCollision e sq b1 b2).1.velocity.y +
      (CheckBallCollision e sq b1 b2).2.mass * (CheckBallCollision e sq b1 b2).2.velocity.y =
      b1.mass * b1.velocity.y + b2.mass * b2.velocity.y := by
  by_cases hg : distSqOf b1 b2 < minDistOf b1 b2 * minDistOf b1 b2 ∧ 0 < distSqOf b1 b2
  · rw [CheckBallCollision_eq e sq b1 b2 hg]
    rw [(applyImpulse_mass _ _ _ _ _).1, (applyImpulse_mass _ _ _ _ _).2]
    have hmom := applyImpulse_momentum e (normalXOf sq b1 b2) (normalYOf sq b1 b2)
      { b1 with position := ⟨b1.position.x - overlapOf sq b1 b2 * normalXOf sq b1 b2,
                             b1.position.y - overlapOf sq b1 b2 * normalYOf sq b1 b2⟩ }
      { b2 with position := ⟨b2.position.x + overlapOf sq b1 b2 * normalXOf sq b1 b2,
                             b2.position.y + overlapOf sq b1 b2 * normalYOf sq b1 b2⟩ }
      (by simpa using ne_of_gt hm1) (by simpa using ne_of_gt hm2)
    simpa using hmom
  · rw [CheckBallCollision_skip e sq b1 b2 hg]
    exact ⟨rfl, rfl⟩

/-- Witness for the C1 theorem at a concrete approaching pair. -/
theorem momentum_conserved_witness :
    0 < wbA.mass ∧ 0 < wbB.mass ∧ wbA.position ≠ wbB.position ∧
    ((CheckBallCollision 1 sqTable wbA wbB).1.mass *
        (CheckBallCollision 1 sqTable wbA wbB).1.velocity.x +
      (CheckBallCollision 1 sqTable wbA wbB).2.mass *
        (CheckBallCollision 1 sqTable wbA wbB).2.velocity.x =
      wbA.mass * wbA.velocity.x + wbB.mass * wbB.velocity.x ∧
     (CheckBallCollision 1 sqTable wbA wbB).1.mass *
        (CheckBallCollision 1 sqTable wbA wbB).1.velocity.y +
      (CheckBallCollision 1 sqTable wbA wbB).2.mass *
        (CheckBallCollision 1 sqTable wbA wbB).2.velocity.y =
      wbA.mass * wbA.velocity.y + wbB.mass * wbB.velocity.y) := by
  have h1 : 0 < wbA.mass := by norm_num [wbA]
  have h2 : 0 < wbB.mass := by norm_num [wbB]
  have h3 : wbA.position ≠ wbB.position := by
    simp only [wbA, wbB]
    intro h
    exact absurd (congrArg Vector2.x h) (by norm_num)
  exact ⟨h1, h2, h3, momentum_conserved 1 sqTable wbA wbB h1 h2 h3⟩

/-- The modelled square root is nonzero whenever its square is the
positive squared distance. -/
lemma sq_ne_zero (sq : ℚ → ℚ) (b1 b2 : Ball)
    (hpos : 0 < distSqOf b1 b2)
    (hsq : sq (distSqOf b1 b2) * sq (distSqOf b1 b2) = distSqOf b1 b2) :
    sq (distSqOf b1 b2) ≠ 0 := by
  intro h
  rw [h, mul_zero] at hsq
  rw [← hsq] at hpos
  exact lt_irrefl 0 hpos

/-- The collision normal is a unit vector whenever the modelled square
root squares back to the squared distance. -/
lemma normal_unit (sq : ℚ → ℚ) (b1 b2 : Ball)
    (hpos : 0 < distSqOf b1 b2)
    (hsq : sq (distSqOf b1 b2) * sq (distSqOf b1 b2) = distSqOf b1 b2) :
    normalXOf sq b1 b2 * normalXOf sq b1 b2 +
      normalYOf sq b1 b2 * normalYOf sq b1 b2 = 1 := by
  have hd := sq_ne_zero sq b1 b2 hpos hsq
  unfold normalXOf normalYOf
  rw [div_mul_div_comm, div_mul_div_comm, div_add_div_same, hsq]
  rw [div_eq_one_iff_eq (ne_of_gt hpos)]
  unfold distSqOf at hsq ⊢
  linarith

/-- C2: with restitution 1, a resolved two-ball collision (distinct
centers, overlapping, not separating along the normal, exact square
root) preserves the total kinetic energy exactly. -/
theorem energy_conserved_restitution_one (sq : ℚ → ℚ) (b1 b2 : Ball)
    (hm1 : 0 < b1.mass) (hm2 : 0 < b2.mass)
    (hne : b1.position ≠ b2.position)
    (hover : distSqOf b1 b2 < minDistOf b1 b2 * minDistOf b1 b2)
    (hsq : sq (distSqOf b1 b2) * sq (distSqOf b1 b2) = distSqOf b1 b2)
    (happ : velAlongNormalOf sq b1 b2 ≤ 0) :
    kineticEnergy (CheckBallCollision 1 sq b1 b2).1 +
      kineticEnergy (CheckBallCollision 1 sq b1 b2).2 =
    kineticEnergy b1 + kineticEnergy b2 := by
  have hpos := distSq_pos b1 b2 hne
  rw [CheckBallCollision_eq 1 sq b1 b2 ⟨hover, hpos⟩]
  have hres := applyImpulse_energy 1 (normalXOf sq b1 b2) (normalYOf sq b1 b2)
    { b1 with position := ⟨b1.position.x - overlapOf sq b1 b2 * normalXOf sq b1 b2,
                           b1.position.y - overlapOf sq b1 b2 * normalYOf sq b1 b2⟩ }
    { b2 with position := ⟨b2.position.x + overlapOf sq b1 b2 * normalXOf sq b1 b2,
                           b2.position.y + overlapOf sq b1 b2 * normalYOf sq b1 b2⟩ }
    (by simpa using hm1) (by simpa using hm2)
    (normal_unit sq b1 b2 hpos hsq)
    (by simpa [velAlongNormalOf, normalXOf, normalYOf] using happ)
  simp only [kineticEnergy] at hres ⊢
  norm_num at hres
  linarith

/-- Witness for the C2 theorem at a concrete head-on pair. -/
theorem energy_conserved_restitution_one_witness :
    0 < wbA.mass ∧ 0 < wbB.mass ∧ wbA.position ≠ wbB.position ∧
    distSqOf wbA wbB < minDistOf wbA wbB * minDistOf wbA wbB ∧
    sqTable (distSqOf wbA wbB) * sqTable (distSqOf wbA wbB) = distSqOf wbA wbB ∧
    velAlongNormalOf sqTable wbA wbB ≤ 0 ∧
    (kineticEnergy (CheckBallCollision 1 sqTable wbA wbB).1 +
      kineticEnergy (CheckBallCollision 1 sqTable wbA wbB).2 =
      kineticEnergy wbA + kineticEnergy wbB) := by
  have h1 : 0 < wbA.mass := by norm_num [wbA]
  have h2 : 0 < wbB.mass := by norm_num [wbB]
  have h3 : wbA.position ≠ wbB.position := by
    simp only [wbA, wbB]
    intro h
    exact absurd (congrArg Vector2.x h) (by norm_num)
  have h4 : distSqOf wbA wbB < minDistOf wbA wbB * minDistOf wbA wbB := by
    norm_num [distSqOf, minDistOf, wbA, wbB]
  have h5 : sqTable (distSqOf wbA wbB) * sqTable (distSqOf wbA wbB) = distSqOf wbA wbB := by
    norm_num [distSqOf, sqTable, wbA, wbB]
  have h6 : velAlongNormalOf sqTable wbA wbB ≤ 0 := by
    norm_num [velAlongNormalOf, distSqOf, sqTable, wbA, wbB]
  exact ⟨h1, h2, h3, h4, h5, h6,
    energy_conserved_restitution_one sqTable wbA wbB h1 h2 h3 h4 h5 h6⟩

/-- C3: with restitution coefficient between 0 and 1 (1 excluded), a
contact pair that is not separating along the normal never gains total
kinetic energy in CheckBallCollision. -/
theorem energy_nonincreasing (e : ℚ) (sq : ℚ → ℚ) (b1 b2 : Ball)
    (he0 : 0 ≤ e) (he1 : e < 1)
    (hm1 : 0 < b1.mass) (hm2 : 0 < b2.mass)
    (hne : b1.position ≠ b2.position)
    (hover : distSqOf b1 b2 < minDistOf b1 b2 * minDistOf b1 b2)
    (hsq : sq (distSqOf b1 b2) * sq (distSqOf b1 b2) = distSqOf b1 b2)
    (happ : velAlongNormalOf sq b1 b2 ≤ 0) :
    kineticEnergy (CheckBallCollision e sq b1 b2).1 +
      kineticEnergy (CheckBallCollision e sq b1 b2).2 ≤
    kineticEnergy b1 + kineticEnergy b2 := by
  have hpos := distSq_pos b1 b2 hne
  rw [CheckBallCollision_eq e sq b1 b2 ⟨hover, hpos⟩]
  have hres := applyImpulse_energy e (normalXOf sq b1 b2) (normalYOf sq b1 b2)
    { b1 with position := ⟨b1.position.x - overlapOf sq b1 b2 * normalXOf sq b1 b2,
                           b1.position.y - overlapOf sq b1 b2 * normalYOf sq b1 b2⟩ }
    { b2 with position := ⟨b2.position.x + overlapOf sq b1 b2 * normalXOf sq b1 b2,
                           b2.position.y + overlapOf sq b1 b2 * normalYOf sq b1 b2⟩ }
    (by simpa using hm1) (by simpa using hm2)
    (normal_unit sq b1 b2 hpos hsq)
    (by simpa [velAlongNormalOf, normalXOf, normalYOf] using happ)
  simp only [kineticEnergy] at hres ⊢
  have hdelta : (1 + e) * (e - 1) / 2 *
      (((b2.velocity.x - b1.velocity.x) * normalXOf sq b1 b2 +
          (b2.velocity.y - b1.velocity.y) * normalYOf sq b1 b2) *
        ((b2.velocity.x - b1.velocity.x) * normalXOf sq b1 b2 +
          (b2.velocity.y - b1.velocity.y) * normalYOf sq b1 b2)) *
      (b1.mass * b2.mass) / (b1.mass + b2.mass) ≤ 0 := by
    have hc : (1 + e) * (e - 1) / 2 ≤ 0 := by nlinarith
    have hAA : 0 ≤ ((b2.velocity.x - b1.velocity.x) * normalXOf sq b1 b2 +
        (b2.velocity.y - b1.velocity.y) * normalYOf sq b1 b2) *
        ((b2.velocity.x - b1.velocity.x) * normalXOf sq b1 b2 +
          (b2.velocity.y - b1.velocity.y) * normalYOf sq b1 b2) := mul_self_nonneg _
    have hmm : 0 < b1.mass * b2.mass := mul_pos hm1 hm2
    have hms : 0 < b1.mass + b2.mass := add_pos hm1 hm2
    have hnum := mul_nonpos_of_nonpos_of_nonneg
      (mul_nonpos_of_nonpos_of_nonneg hc hAA) (le_of_lt hmm)
    exact div_nonpos_of_nonpos_of_nonneg hnum (le_of_lt hms)
  linarith

/-- Witness for the C3 theorem at restitution one half. -/
theorem energy_nonincreasing_witness :
    (0:ℚ) ≤ 1/2 ∧ (1/2:ℚ) < 1 ∧
    0 < wbA.mass ∧ 0 < wbB.mass ∧ wbA.position ≠ wbB.position ∧
    distSqOf wbA wbB < minDistOf wbA wbB * minDistOf wbA wbB ∧
    sqTable (distSqOf wbA wbB) * sqTable (distSqOf wbA wbB) = distSqOf wbA wbB ∧
    velAlongNormalOf sqTable wbA wbB ≤ 0 ∧
    (kineticEnergy (CheckBallCollision (1/2) sqTable wbA wbB).1 +
      kineticEnergy (CheckBallCollision (1/2) sqTable wbA wbB).2 ≤
      kineticEnergy wbA + kineticEnergy wbB) := by
  have he0 : (0:ℚ) ≤ 1/2 := by norm_num
  have he1 : (1/2:ℚ) < 1 := by norm_num
  have h1 : 0 < wbA.mass := by norm_num [wbA]
  have h2 : 0 < wbB.mass := by norm_num [wbB]
  have h3 : wbA.position ≠ wbB.position := by
    simp only [wbA, wbB]
    intro h
    exact absurd (congrArg Vector2.x h) (by norm_num)
  have h4 : distSqOf wbA wbB < minDistOf wbA wbB * minDistOf wbA wbB := by
    norm_num [distSqOf, minDistOf, wbA, wbB]
  have h5 : sqTable (distSqOf wbA wbB) * sqTable (distSqOf wbA wbB) = distSqOf wbA wbB := by
    norm_num [distSqOf, sqTable, wbA, wbB]
  have h6 : velAlongNormalOf sqTable wbA wbB ≤ 0 := by
    norm_num [velAlongNormalOf, distSqOf, sqTable, wbA, wbB]
  exact ⟨he0, he1, h1, h2, h3, h4, h5, h6,
    energy_nonincreasing (1/2) sqTable wbA wbB he0 he1 h1 h2 h3 h4 h5 h6⟩

/-- C6: a ball at (5, 300) of radius 15 and velocity (-100, 0) in the 800
by 600 window is clamped by CheckWallCollision to x = 15 with velocity.x
equal to 100 times the restitution coefficient, position.y and velocity.y
unchanged. -/
theorem wall_bounce_scenario (e m : ℚ) (c : Color) :
    CheckWallCollision e ⟨⟨5, 300⟩, ⟨-100, 0⟩, 15, m, c⟩ =
      ⟨⟨15, 300⟩, ⟨100 * e, 0⟩, 15, m, c⟩ := by
  norm_num [CheckWallCollision, WIDTH, HEIGHT, Ball.mk.injEq, Vector2.mk.injEq]

/-- C7: for balls of the shape produced by InitBalls, masses are positive,
a pair with coincident centers is skipped untouched, and under the guard
of positive squared distance every denominator used by CheckBallCollision
is nonzero. -/
theorem division_safety (e : ℚ) (sq : ℚ → ℚ) (b1 b2 : Ball)
    (h1 : InitializedBall b1) (h2 : InitializedBall b2) :
    0 < b1.mass ∧ 0 < b2.mass ∧
    (distSqOf b1 b2 = 0 → CheckBallCollision e sq b1 b2 = (b1, b2)) ∧
    (0 < distSqOf b1 b2 →
      sq (distSqOf b1 b2) * sq (distSqOf b1 b2) = distSqOf b1 b2 →
      sq (distSqOf b1 b2) ≠ 0 ∧ b1.mass ≠ 0 ∧ b2.mass ≠ 0 ∧
        1 / b1.mass + 1 / b2.mass ≠ 0) := by
  obtain ⟨hr1, -, hm1eq⟩ := h1
  obtain ⟨hr2, -, hm2eq⟩ := h2
  rw [MIN_BALL_RADIUS] at hr1 hr2
  have hr1' : (15:ℚ) ≤ (b1.radius : ℚ) := by exact_mod_cast hr1
  have hr2' : (15:ℚ) ≤ (b2.radius : ℚ) := by exact_mod_cast hr2
  have hm1 : 0 < b1.mass := by rw [hm1eq]; linarith
  have hm2 : 0 < b2.mass := by rw [hm2eq]; linarith
  refine ⟨hm1, hm2, ?_, ?_⟩
  · intro h0
    apply CheckBallCollision_skip
    rintro ⟨-, hp⟩
    rw [h0] at hp
    exact lt_irrefl 0 hp
  · intro hp hsq
    refine ⟨sq_ne_zero sq b1 b2 hp hsq, ne_of_gt hm1, ne_of_gt hm2, ?_⟩
    have : 0 < 1 / b1.mass + 1 / b2.mass :=
      add_pos (one_div_pos.mpr hm1) (one_div_pos.mpr hm2)
    exact ne_of_gt this

/-- Witness for the C7 theorem on two initializer-shaped balls. -/
theorem division_safety_witness :
    InitializedBall wbE ∧ InitializedBall wbF ∧
    (0 < wbE.mass ∧ 0 < wbF.mass ∧
      (distSqOf wbE wbF = 0 → CheckBallCollision 1 sqTable wbE wbF = (wbE, wbF)) ∧
      (0 < distSqOf wbE wbF →
        sqTable (distSqOf wbE wbF) * sqTable (distSqOf wbE wbF) = distSqOf wbE wbF →
        sqTable (distSqOf wbE wbF) ≠ 0 ∧ wbE.mass ≠ 0 ∧ wbF.mass ≠ 0 ∧
          1 / wbE.mass + 1 / wbF.mass ≠ 0)) := by
  have h1 : InitializedBall wbE := by
    norm_num [InitializedBall, MIN_BALL_RADIUS, MAX_BALL_RADIUS, wbE]
  have h2 : InitializedBall wbF := by
    norm_num [InitializedBall, MIN_BALL_RADIUS, MAX_BALL_RADIUS, wbF]
  exact ⟨h1, h2, division_safety 1 sqTable wbE wbF h1 h2⟩

/-- C5: two balls of radius 20 and mass 10, centers 39 apart on the
x-axis, approaching at (+50, 0) and (-50, 0) with restitution 1, swap
velocities and are separated to distance exactly 40 by one call of
CheckBallCollision. -/
theorem head_on_swap_scenario (sq : ℚ → ℚ) (x y : ℚ) (c1 c2 : Color)
    (hsq : sq 1521 = 39) :
    CheckBallCollision 1 sq ⟨⟨x, y⟩, ⟨50, 0⟩, 20, 10, c1⟩
        ⟨⟨x + 39, y⟩, ⟨-50, 0⟩, 20, 10, c2⟩ =
      (⟨⟨x - 1/2, y⟩, ⟨-50, 0⟩, 20, 10, c1⟩,
       ⟨⟨x + 39 + 1/2, y⟩, ⟨50, 0⟩, 20, 10, c2⟩) ∧
    distSqOf
        (CheckBallCollision 1 sq ⟨⟨x, y⟩, ⟨50, 0⟩, 20, 10, c1⟩
          ⟨⟨x + 39, y⟩, ⟨-50, 0⟩, 20, 10, c2⟩).1
        (CheckBallCollision 1 sq ⟨⟨x, y⟩, ⟨50, 0⟩, 20, 10, c1⟩
          ⟨⟨x + 39, y⟩, ⟨-50, 0⟩, 20, 10, c2⟩).2 = 40 * 40 := by
  have e1 : x + 39 - x = (39:ℚ) := by ring
  have e2 : y - y = (0:ℚ) := by ring
  have hmain : CheckBallCollision 1 sq ⟨⟨x, y⟩, ⟨50, 0⟩, 20, 10, c1⟩
      ⟨⟨x + 39, y⟩, ⟨-50, 0⟩, 20, 10, c2⟩ =
      (⟨⟨x - 1/2, y⟩, ⟨-50, 0⟩, 20, 10, c1⟩,
       ⟨⟨x + 39 + 1/2, y⟩, ⟨50, 0⟩, 20, 10, c2⟩) := by
    simp only [CheckBallCollision, applyImpulse]
    rw [e1, e2]
    norm_num
    rw [hsq]
    norm_num [Prod.ext_iff, Ball.mk.injEq, Vector2.mk.injEq]
  refine ⟨hmain, ?_⟩
  rw [hmain]
  simp only [distSqOf]
  rw [e2]
  ring_nf

/-- Witness for the C5 theorem with the table square root. -/
theorem head_on_swap_scenario_witness :
    sqTable 1521 = 39 ∧
    (CheckBallCollision 1 sqTable ⟨⟨100, 200⟩, ⟨50, 0⟩, 20, 10, ⟨1, 2, 3, 255⟩⟩
        ⟨⟨100 + 39, 200⟩, ⟨-50, 0⟩, 20, 10, ⟨3, 2, 1, 255⟩⟩ =
      (⟨⟨100 - 1/2, 200⟩, ⟨-50, 0⟩, 20, 10, ⟨1, 2, 3, 255⟩⟩,
       ⟨⟨100 + 39 + 1/2, 200⟩, ⟨50, 0⟩, 20, 10, ⟨3, 2, 1, 255⟩⟩) ∧
    distSqOf
        (CheckBallCollision 1 sqTable ⟨⟨100, 200⟩, ⟨50, 0⟩, 20, 10, ⟨1, 2, 3, 255⟩⟩
          ⟨⟨100 + 39, 200⟩, ⟨-50, 0⟩, 20, 10, ⟨3, 2, 1, 255⟩⟩).1
        (CheckBallCollision 1 sqTable ⟨⟨100, 200⟩, ⟨50, 0⟩, 20, 10, ⟨1, 2, 3, 255⟩⟩
          ⟨⟨100 + 39, 200⟩, ⟨-50, 0⟩, 20, 10, ⟨3, 2, 1, 255⟩⟩).2 = 40 * 40) := by
  have h : sqTable 1521 = 39 := by norm_num [sqTable]
  exact ⟨h, head_on_swap_scenario sqTable 100 200 ⟨1, 2, 3, 255⟩ ⟨3, 2, 1, 255⟩ h⟩

/-- C4 (amended): the wall check itself always restores containment for a
ball whose diameter fits the window; the original end-of-step claim fails
because a later pairwise positional correction can undo this. -/
theorem wall_collision_contains (e : ℚ) (b : Ball)
    (h0 : 0 ≤ b.radius)
    (hw : (b.radius : ℚ) + (b.radius : ℚ) ≤ WIDTH)
    (hh : (b.radius : ℚ) + (b.radius : ℚ) ≤ HEIGHT) :
    contained (CheckWallCollision e b) := by
  have h0' : (0:ℚ) ≤ (b.radius : ℚ) := by exact_mod_cast h0
  rw [WIDTH] at hw
  rw [HEIGHT] at hh
  simp only [CheckWallCollision, contained, WIDTH, HEIGHT]
  split_ifs <;>
    simp only at * <;>
    refine ⟨?_, ?_, ?_, ?_⟩ <;>
    linarith

/-- Witness for the amended C4 theorem on a ball outside the window. -/
theorem wall_collision_contains_witness :
    (0:ℤ) ≤ wbW.radius ∧
    (wbW.radius : ℚ) + (wbW.radius : ℚ) ≤ WIDTH ∧
    (wbW.radius : ℚ) + (wbW.radius : ℚ) ≤ HEIGHT ∧
    contained (CheckWallCollision RESTITUTION_COEFFICIENT wbW) := by
  have h0 : (0:ℤ) ≤ wbW.radius := by norm_num [wbW]
  have hw : (wbW.radius : ℚ) + (wbW.radius : ℚ) ≤ WIDTH := by norm_num [wbW, WIDTH]
  have hh : (wbW.radius : ℚ) + (wbW.radius : ℚ) ≤ HEIGHT := by norm_num [wbW, HEIGHT]
  exact ⟨h0, hw, hh, wall_collision_contains RESTITUTION_COEFFICIENT wbW h0 hw hh⟩

/-- Value of one UpdateFrame step on the counterexample state: the
pairwise positional correction pushes cexBallA back off the left wall
after its wall check already ran. -/
lemma update_cex_eval :
    UpdateFrame RESTITUTION_COEFFICIENT sqTable 0 [cexBallA, cexBallB] =
      [⟨⟨10, 300⟩, ⟨0, 0⟩, 15, 15/2, ⟨110, 120, 130, 255⟩⟩,
       ⟨⟨40, 300⟩, ⟨0, 0⟩, 15, 15/2, ⟨130, 120, 110, 255⟩⟩] := by
  norm_num [UpdateFrame, wallStep, pairStep, CheckWallCollision, CheckBallCollision,
    applyImpulse, integratePosition, RESTITUTION_COEFFICIENT, WIDTH, HEIGHT, sqTable,
    cexBallA, cexBallB, List.range_succ]

/-- C4 counterexample: both balls start inside the window, the frame
delta time is zero (nonnegative), yet after one UpdateFrame step the
first ball sits at x = 10 with radius 15, violating containment. -/
theorem wall_containment_cex :
    contained cexBallA ∧ contained cexBallB ∧
    ¬ (∀ b ∈ UpdateFrame RESTITUTION_COEFFICIENT sqTable 0 [cexBallA, cexBallB],
        contained b) := by
  refine ⟨?_, ?_, ?_⟩
  · norm_num [contained, cexBallA, WIDTH, HEIGHT]
  · norm_num [contained, cexBallB, WIDTH, HEIGHT]
  · intro hall
    have hmem : (⟨⟨10, 300⟩, ⟨0, 0⟩, 15, 15/2, ⟨110, 120, 130, 255⟩⟩ : Ball) ∈
        UpdateFrame RESTITUTION_COEFFICIENT sqTable 0 [cexBallA, cexBallB] := by
      rw [update_cex_eval]
      exact List.mem_cons_self _ _
    have hc := hall _ hmem
    rw [contained] at hc
    norm_num at hc

/-- The wall check never changes radius, mass or color. -/
lemma shape_wall (e : ℚ) (b : Ball) : shape (CheckWallCollision e b) = shape b := by
  simp only [CheckWallCollision, shape]
  split_ifs <;> rfl

/-- The pairwise collision never changes radius, mass or color. -/
lemma shape_ballCollision (e : ℚ) (sq : ℚ → ℚ) (b1 b2 : Ball) :
    shape (CheckBallCollision e sq b1 b2).1 = shape b1 ∧
    shape (CheckBallCollision e sq b1 b2).2 = shape b2 := by
  by_cases hg : distSqOf b1 b2 < minDistOf b1 b2 * minDistOf b1 b2 ∧ 0 < distSqOf b1 b2
  · rw [CheckBallCollision_eq e sq b1 b2 hg]
    exact ⟨(applyImpulse_shape _ _ _ _ _).1, (applyImpulse_shape _ _ _ _ _).2⟩
  · rw [CheckBallCollision_skip e sq b1 b2 hg]
    exact ⟨rfl, rfl⟩

/-- Setting an index of a list back to the element already stored there
is the identity. -/
lemma set_get_self {α : Type} (l : List α) :
    ∀ (i : ℕ) (a : α), l.get? i = some a → l.set i a = l := by
  induction l with
  | nil =>
    intro i a h
    simp at h
  | cons x xs ih =>
    intro i a h
    cases i with
    | zero =>
      simp at h
      rw [h]
      rfl
    | succ n =>
      have h' : xs.get? n = some a := by simpa using h
      simp [List.set, ih n a h']

/-- Setting an index to an element of the same shape keeps the shape list
of the whole list. -/
lemma map_shape_set (bs : List Ball) (i : ℕ) (b b' : Ball)
    (hget : bs.get? i = some b) (hs : shape b' = shape b) :
    (bs.set i b').map shape = bs.map shape := by
  rw [List.map_set, hs]
  apply set_get_self
  rw [List.get?_map, hget]
  rfl

/-- The wall step of the frame loop keeps the shape list. -/
lemma wallStep_shape (e : ℚ) (bs : List Ball) (i : ℕ) :
    (wallStep e bs i).map shape = bs.map shape := by
  unfold wallStep
  cases h : bs.get? i with
  | none => rfl
  | some b => exact map_shape_set bs i b _ h (shape_wall e b)

/-- The pair step of the frame loop keeps the shape list. -/
lemma pairStep_shape (e : ℚ) (sq : ℚ → ℚ) (bs : List Ball) (i j : ℕ) :
    (pairStep e sq bs i j).map shape = bs.map shape := by
  unfold pairStep
  cases h1 : bs.get? i with
  | none => rfl
  | some b1 =>
    cases h2 : bs.get? j with
    | none => rfl
    | some b2 =>
      simp only
      have hs1 := (shape_ballCollision e sq b1 b2).1
      have hs2 := (shape_ballCollision e sq b1 b2).2
      have step1 : (bs.set i (CheckBallCollision e sq b1 b2).1).map shape = bs.map shape :=
        map_shape_set bs i b1 _ h1 hs1
      by_cases hij : i = j
      · subst hij
        have hb : b1 = b2 := by
          rw [h1] at h2
          exact Option.some.inj h2
        subst hb
        have hlt : i < bs.length := by
          rcases List.get?_eq_some.mp h1 with ⟨hlt, -⟩
          exact hlt
        have hget2 : (bs.set i (CheckBallCollision e sq b1 b1).1).get? i =
            some (CheckBallCollision e sq b1 b1).1 := by
          apply List.get?_set_eq_of_lt
          simpa using hlt
        rw [map_shape_set (bs.set i (CheckBallCollision e sq b1 b1).1) i
          (CheckBallCollision e sq b1 b1).1 (CheckBallCollision e sq b1 b1).2 hget2
          (hs2.trans hs1.symm), step1]
      · have hget2 : (bs.set i (CheckBallCollision e sq b1 b2).1).get? j = some b2 := by
          rw [List.get?_set_ne _ _ hij, h2]
        rw [map_shape_set (bs.set i (CheckBallCollision e sq b1 b2).1) j
          b2 _ hget2 hs2, step1]

/-- Folding any shape-preserving update over a list preserves the shape
list. -/
lemma foldl_shape {β : Type} (f : List Ball → β → List Ball)
    (hf : ∀ cs x, (f cs x).map shape = cs.map shape) :
    ∀ (l : List β) (bs : List Ball), (l.foldl f bs).map shape = bs.map shape := by
  intro l
  induction l with
  | nil => intro bs; rfl
  | cons x xs ih =>
    intro bs
    rw [List.foldl_cons, ih, hf]

/-- C9: UpdateFrame never changes the radius, mass or color of any ball,
for every ball list and every frame delta time; only positions and
velocities may change. -/
theorem update_frame_preserves_shape (e : ℚ) (sq : ℚ → ℚ) (dt : ℚ) (balls : List Ball) :
    (UpdateFrame e sq dt balls).map shape = balls.map shape := by
  simp only [UpdateFrame]
  rw [foldl_shape _ ?hf]
  case hf =>
    intro cs i
    rw [foldl_shape _ (fun cs2 j => pairStep_shape e sq cs2 i j)]
    exact wallStep_shape e cs i
  rw [List.map_map]
  rfl

end Sim
